import Mathlib

/-!
Verification of the 6DOF input-normalization and camera-navigation core of
the semantic-sphere repository.

The embedding follows the two source modules that implement the core:

* the `SpaceMouseController` class (dead-zone shaping, inversion,
  sensitivity, motion buffer, per-axis smoothing windows, camera delta
  integration);
* the `useNavigationStore` Zustand store (camera pose, bounded navigation
  history with back/forward replay).

JavaScript numbers are embedded as exact rationals (`ℚ`); arrays of
samples or snapshots as Lean lists (index 0 = oldest, matching
`push`/`shift` at the two ends).  The asynchronous `setTimeout` that
clears the `isAnimating` flag is not part of any synchronous state
transition and is not modelled; each operation below is the synchronous
effect of the corresponding store action or controller method.
-/

set_option autoImplicit false
set_option maxRecDepth 100000

namespace SemanticSphere

/-- One six-axis motion sample (`SpaceMouseMotion` in the source):
three translation axes, three rotation axes, and a timestamp. -/
structure SpaceMouseMotion where
  x : ℚ
  y : ℚ
  z : ℚ
  rx : ℚ
  ry : ℚ
  rz : ℚ
  timestamp : ℚ
  deriving DecidableEq, Repr

/-- The per-device configuration block (`SpaceMouseSettings` in the
settings store): sensitivity scalar, six per-axis inversion flags,
dead-zone radius and smoothing coefficient. -/
structure SpaceMouseSettings where
  sensitivity : ℚ
  invertX : Bool
  invertY : Bool
  invertZ : Bool
  invertRX : Bool
  invertRY : Bool
  invertRZ : Bool
  deadZone : ℚ
  smoothing : ℚ
  deriving DecidableEq, Repr

/-- The default `spaceMouse` settings of the settings store. -/
def defaultSpaceMouseSettings : SpaceMouseSettings :=
  { sensitivity := 1
    invertX := false
    invertY := false
    invertZ := false
    invertRX := false
    invertRY := false
    invertRZ := false
    deadZone := 1/10
    smoothing := 8/10 }

/-- `Math.sign`: 1 on positive input, -1 on negative input, 0 on zero. -/
def mathSign (v : ℚ) : ℚ :=
  if 0 < v then 1 else if v < 0 then -1 else 0

/-- The inner `applyDeadZoneToValue` closure of
`SpaceMouseController.applyDeadZone`: magnitudes below the dead-zone
radius collapse to 0, the rest of the range is rescaled by
`(|v| - deadZone) / (1 - deadZone)` and given back its sign. -/
def applyDeadZoneToValue (deadZone : ℚ) (v : ℚ) : ℚ :=
  if |v| < deadZone then 0
  else mathSign v * ((|v| - deadZone) / (1 - deadZone))

/-- `SpaceMouseController.applyDeadZone`: the per-axis dead-zone shaping
applied to all six axes; the timestamp is passed through. -/
def applyDeadZone (motion : SpaceMouseMotion) (deadZone : ℚ) : SpaceMouseMotion :=
  { x := applyDeadZoneToValue deadZone motion.x
    y := applyDeadZoneToValue deadZone motion.y
    z := applyDeadZoneToValue deadZone motion.z
    rx := applyDeadZoneToValue deadZone motion.rx
    ry := applyDeadZoneToValue deadZone motion.ry
    rz := applyDeadZoneToValue deadZone motion.rz
    timestamp := motion.timestamp }

/-- The inversion step of `SpaceMouseController.handleMotion`: each axis
is negated when its inversion flag is set. -/
def applyInversion (settings : SpaceMouseSettings) (m : SpaceMouseMotion) :
    SpaceMouseMotion :=
  { m with
    x := if settings.invertX then -m.x else m.x
    y := if settings.invertY then -m.y else m.y
    z := if settings.invertZ then -m.z else m.z
    rx := if settings.invertRX then -m.rx else m.rx
    ry := if settings.invertRY then -m.ry else m.ry
    rz := if settings.invertRZ then -m.rz else m.rz }

/-- The sensitivity step of `SpaceMouseController.handleMotion`: every
axis is multiplied by the uniform sensitivity scalar. -/
def applySensitivity (settings : SpaceMouseSettings) (m : SpaceMouseMotion) :
    SpaceMouseMotion :=
  { m with
    x := m.x * settings.sensitivity
    y := m.y * settings.sensitivity
    z := m.z * settings.sensitivity
    rx := m.rx * settings.sensitivity
    ry := m.ry * settings.sensitivity
    rz := m.rz * settings.sensitivity }

/-- The pure sample transform performed by
`SpaceMouseController.handleMotion` before buffering: dead zone, then
inversion, then sensitivity. -/
def processMotion (settings : SpaceMouseSettings) (motion : SpaceMouseMotion) :
    SpaceMouseMotion :=
  applySensitivity settings (applyInversion settings (applyDeadZone motion settings.deadZone))

/-- The buffering step of `SpaceMouseController.handleMotion`: the
processed sample is pushed, then the oldest entry is shifted out when the
buffer exceeds 10 entries. -/
def pushMotionBuffer (buffer : List SpaceMouseMotion) (m : SpaceMouseMotion) :
    List SpaceMouseMotion :=
  let buffer := buffer ++ [m]
  if buffer.length > 10 then buffer.tail else buffer

/-- `SpaceMouseController.handleMotion` restricted to its effect on the
motion buffer: transform the raw sample, then buffer it. -/
def handleMotion (settings : SpaceMouseSettings)
    (buffer : List SpaceMouseMotion) (motion : SpaceMouseMotion) :
    List SpaceMouseMotion :=
  pushMotionBuffer buffer (processMotion settings motion)

/-- `SpaceMouseController.hasSignificantMotion`: some axis exceeds the
fixed 0.01 threshold in magnitude. -/
def hasSignificantMotion (m : SpaceMouseMotion) : Prop :=
  1/100 < |m.x| ∨ 1/100 < |m.y| ∨ 1/100 < |m.z| ∨
  1/100 < |m.rx| ∨ 1/100 < |m.ry| ∨ 1/100 < |m.rz|

/-- `SpaceMouseController.calculateSmoothedValue` on one axis window
(index 0 = oldest): 0 on an empty window; the latest entry when the
smoothing factor is 0; otherwise the left fold of
`smoothed = α·smoothed + (1-α)·next` started from the oldest entry. -/
def calculateSmoothedValue (buffer : List ℚ) (smoothingFactor : ℚ) : ℚ :=
  match buffer with
  | [] => 0
  | v :: rest =>
    if smoothingFactor = 0 then
      (v :: rest).getLast (List.cons_ne_nil v rest)
    else
      rest.foldl (fun smoothed next =>
        smoothingFactor * smoothed + (1 - smoothingFactor) * next) v

/-- The per-axis smoothing-window insertion inside
`SpaceMouseController.applySmoothingFilter`: push the latest value, shift
the oldest out when the window exceeds 5 entries. -/
def pushSmoothingBuffer (buffer : List ℚ) (v : ℚ) : List ℚ :=
  let buffer := buffer ++ [v]
  if buffer.length > 5 then buffer.tail else buffer

/-- A camera pose (`CameraState` in the navigation store): position,
look-at target, zoom scalar and field-of-view scalar. -/
structure CameraState where
  position : ℚ × ℚ × ℚ
  target : ℚ × ℚ × ℚ
  zoom : ℚ
  fov : ℚ
  deriving DecidableEq, Repr

/-- The `defaultCameraState` constant of the navigation store. -/
def defaultCameraState : CameraState :=
  { position := (0, 0, 10), target := (0, 0, 0), zoom := 1, fov := 75 }

/-- The state held by `useNavigationStore`: current and default camera,
snapshot history with its current index (an integer, -1 when nothing has
been committed), and the animation/input flags. -/
structure NavigationState where
  camera : CameraState
  defaultCamera : CameraState
  history : List CameraState
  currentHistoryIndex : ℤ
  isAnimating : Bool
  animationDuration : ℚ
  isDragging : Bool
  isSpaceMouseActive : Bool
  deriving DecidableEq, Repr

/-- The initial state installed when the store is created. -/
def initialNavigationState : NavigationState :=
  { camera := defaultCameraState
    defaultCamera := defaultCameraState
    history := []
    currentHistoryIndex := -1
    isAnimating := false
    animationDuration := 1000
    isDragging := false
    isSpaceMouseActive := false }

/-- Store action `setCameraPosition`: replaces the camera's position,
leaving every other field alone. -/
def setCameraPosition (s : NavigationState) (position : ℚ × ℚ × ℚ) :
    NavigationState :=
  { s with camera := { s.camera with position := position } }

/-- Store action `setCameraTarget`: replaces the camera's look-at target,
leaving every other field alone. -/
def setCameraTarget (s : NavigationState) (target : ℚ × ℚ × ℚ) :
    NavigationState :=
  { s with camera := { s.camera with target := target } }

/-- Store action `setZoom`: clamps the requested zoom into [0.1, 10]
via `Math.max(0.1, Math.min(10, zoom))` before committing. -/
def setZoom (s : NavigationState) (zoom : ℚ) : NavigationState :=
  { s with camera := { s.camera with zoom := max (1/10) (min 10 zoom) } }

/-- Store action `resetCamera`: replaces the camera with the stored
default pose and raises the animating flag.  It does not touch the
history. -/
def resetCamera (s : NavigationState) : NavigationState :=
  { s with camera := s.defaultCamera, isAnimating := true }

/-- Store action `addToHistory`: truncate the history to the entries up
to and including the current index (`slice(0, index + 1)`), append a
snapshot of the current camera, shift the oldest entry out when the
size bound of 50 is exceeded, and point the index at the new tail. -/
def addToHistory (s : NavigationState) : NavigationState :=
  let newHistory := s.history.take (s.currentHistoryIndex + 1).toNat ++ [s.camera]
  let newHistory := if newHistory.length > 50 then newHistory.tail else newHistory
  { s with
    history := newHistory
    currentHistoryIndex := (newHistory.length : ℤ) - 1 }

/-- Store action `animateToPosition`: jump the camera to the given
position (and target when one is supplied), raise the animating flag,
then commit a snapshot of the resulting pose through `addToHistory`. -/
def animateToPosition (s : NavigationState) (position : ℚ × ℚ × ℚ)
    (target : Option (ℚ × ℚ × ℚ)) : NavigationState :=
  let s :=
    { s with
      camera :=
        { s.camera with
          position := position
          target := target.getD s.camera.target }
      isAnimating := true }
  addToHistory s

/-- Store action `navigateBack`: when the index is strictly positive,
move it one step back, replace the camera with that entry's snapshot and
raise the animating flag; otherwise do nothing. -/
def navigateBack (s : NavigationState) : NavigationState :=
  if 0 < s.currentHistoryIndex then
    { s with
      camera := s.history.getD (s.currentHistoryIndex - 1).toNat s.camera
      currentHistoryIndex := s.currentHistoryIndex - 1
      isAnimating := true }
  else s

/-- Store action `navigateForward`: when the index is strictly before the
last entry, move it one step forward, replace the camera with that
entry's snapshot and raise the animating flag; otherwise do nothing. -/
def navigateForward (s : NavigationState) : NavigationState :=
  if s.currentHistoryIndex < (s.history.length : ℤ) - 1 then
    { s with
      camera := s.history.getD (s.currentHistoryIndex + 1).toNat s.camera
      currentHistoryIndex := s.currentHistoryIndex + 1
      isAnimating := true }
  else s

/-- `SpaceMouseController.applyMotionToCamera`: explicit-Euler
integration of one smoothed sample into the camera pose, with the fixed
nominal frame duration 0.016 s, translation speed 5.0 and rotation speed
1.0; implemented through `setCameraPosition` and `setCameraTarget`. -/
def applyMotionToCamera (s : NavigationState) (motion : SpaceMouseMotion) :
    NavigationState :=
  let deltaTime : ℚ := 16/1000
  let translationSpeed : ℚ := 5
  let rotationSpeed : ℚ := 1
  let c := s.camera
  let newPosition : ℚ × ℚ × ℚ :=
    (c.position.1 + motion.x * translationSpeed * deltaTime,
     c.position.2.1 + motion.y * translationSpeed * deltaTime,
     c.position.2.2 + motion.z * translationSpeed * deltaTime)
  let newTarget : ℚ × ℚ × ℚ :=
    (c.target.1 + motion.rx * rotationSpeed * deltaTime,
     c.target.2.1 + motion.ry * rotationSpeed * deltaTime,
     c.target.2.2 + motion.rz * rotationSpeed * deltaTime)
  setCameraTarget (setCameraPosition s newPosition) newTarget

/-- One discrete operation on the navigation store, for reachability
statements. -/
inductive NavOp where
  | addToHistory : NavOp
  | navigateBack : NavOp
  | navigateForward : NavOp
  | resetCamera : NavOp
  | animateToPosition : (ℚ × ℚ × ℚ) → Option (ℚ × ℚ × ℚ) → NavOp
  | setCameraPosition : (ℚ × ℚ × ℚ) → NavOp
  | setCameraTarget : (ℚ × ℚ × ℚ) → NavOp
  | setZoom : ℚ → NavOp
  deriving Repr

/-- Interpretation of one `NavOp` as the corresponding store action. -/
def applyNavOp (s : NavigationState) : NavOp → NavigationState
  | NavOp.addToHistory => addToHistory s
  | NavOp.navigateBack => navigateBack s
  | NavOp.navigateForward => navigateForward s
  | NavOp.resetCamera => resetCamera s
  | NavOp.animateToPosition p t => animateToPosition s p t
  | NavOp.setCameraPosition p => setCameraPosition s p
  | NavOp.setCameraTarget t => setCameraTarget s t
  | NavOp.setZoom z => setZoom s z

/-- Running a sequence of store actions from a given state. -/
def runNavOps (s : NavigationState) (ops : List NavOp) : NavigationState :=
  ops.foldl applyNavOp s

/-- The history-index invariant of the navigation store: the index is -1
exactly when the history is empty, and otherwise points at a valid
entry. -/
def indexInvariant (s : NavigationState) : Prop :=
  (s.history = [] ∧ s.currentHistoryIndex = -1) ∨
  (0 ≤ s.currentHistoryIndex ∧ s.currentHistoryIndex < (s.history.length : ℤ))

/-- `navigateBack` iterated `n` times. -/
def backIter : ℕ → NavigationState → NavigationState
  | 0, s => s
  | n + 1, s => backIter n (navigateBack s)

/-- A sequence of `animateToPosition` calls (no explicit targets), one
per listed position. -/
def animateSeq (s : NavigationState) (ps : List (ℚ × ℚ × ℚ)) : NavigationState :=
  ps.foldl (fun s p => animateToPosition s p none) s

/-- Test harness for the history-truncation scenario: make `c` the
current camera pose, then commit it through `addToHistory`. -/
def commitSnapshot (s : NavigationState) (c : CameraState) : NavigationState :=
  addToHistory { s with camera := c }

/-- Three concrete distinct camera poses for scenario witnesses. -/
def poseA : CameraState := { defaultCameraState with position := (1, 0, 0) }

/-- See `poseA`. -/
def poseB : CameraState := { defaultCameraState with position := (2, 0, 0) }

/-- See `poseA`. -/
def poseC : CameraState := { defaultCameraState with position := (3, 0, 0) }

/-! ### Dead-zone shaping (C1) -/

theorem abs_mathSign_le_one (v : ℚ) : |mathSign v| ≤ 1 := by
  unfold mathSign
  split_ifs <;> norm_num

/-- C1: for every dead-zone radius `d ∈ [0,1)` and input `v`, the
dead-zone transform maps `v` to 0 when `|v| ≤ d` (including the boundary
`|v| = d`), maps it to `sign v · (|v| - d)/(1 - d)` when `|v| > d`, is
continuous at the boundary (for every `ε > 0` there is `δ > 0` with
`|v| < d + δ → |output| < ε`), and in particular with `d = 0.1` sends
0.05 to 0 and 0.55 to 0.5. -/
theorem deadZone_shaping_correct (d : ℚ) (h0 : 0 ≤ d) (h1 : d < 1) :
    (∀ v : ℚ, |v| ≤ d → applyDeadZoneToValue d v = 0) ∧
    (∀ v : ℚ, d < |v| →
      applyDeadZoneToValue d v = mathSign v * ((|v| - d) / (1 - d))) ∧
    (∀ ε : ℚ, 0 < ε → ∃ δ : ℚ, 0 < δ ∧ ∀ v : ℚ, |v| < d + δ →
      |applyDeadZoneToValue d v| < ε) ∧
    applyDeadZoneToValue (1/10) (1/20) = 0 ∧
    applyDeadZoneToValue (1/10) (11/20) = 1/2 := by
  have hd1 : 0 < 1 - d := by linarith
  refine ⟨?_, ?_, ?_, by with_unfolding_all decide, by with_unfolding_all decide⟩
  · intro v hv
    unfold applyDeadZoneToValue
    rcases lt_or_eq_of_le hv with hlt | heq
    · rw [if_pos hlt]
    · rw [if_neg (by rw [heq]; exact lt_irrefl d), heq]
      simp
  · intro v hv
    unfold applyDeadZoneToValue
    rw [if_neg (not_lt.mpr (le_of_lt hv))]
  · intro ε hε
    refine ⟨ε * (1 - d), by positivity, ?_⟩
    intro v hv
    unfold applyDeadZoneToValue
    by_cases hlt : |v| < d
    · rw [if_pos hlt]; simpa using hε
    · rw [if_neg hlt]
      push_neg at hlt
      have hnum : 0 ≤ |v| - d := by linarith
      have hq : 0 ≤ (|v| - d) / (1 - d) := div_nonneg hnum (le_of_lt hd1)
      rw [abs_mul, abs_of_nonneg hq]
      have hbound : (|v| - d) / (1 - d) < ε := by
        rw [div_lt_iff₀ hd1]
        nlinarith
      calc |mathSign v| * ((|v| - d) / (1 - d))
          ≤ 1 * ((|v| - d) / (1 - d)) :=
            mul_le_mul_of_nonneg_right (abs_mathSign_le_one v) hq
        _ = (|v| - d) / (1 - d) := one_mul _
        _ < ε := hbound

/-- Witness for C1 at `d = 0.1`. -/
theorem deadZone_shaping_correct_witness :
    applyDeadZoneToValue (1/10) (1/20) = 0 ∧
    applyDeadZoneToValue (1/10) (11/20) = 1/2 :=
  ⟨(deadZone_shaping_correct (1/10) (by with_unfolding_all decide)
      (by with_unfolding_all decide)).2.2.2.1,
   (deadZone_shaping_correct (1/10) (by with_unfolding_all decide)
      (by with_unfolding_all decide)).2.2.2.2⟩

/-! ### Exponential smoothing (C2, C10) -/

theorem calculateSmoothedValue_cons (v : ℚ) (rest : List ℚ) (α : ℚ) :
    calculateSmoothedValue (v :: rest) α =
      if α = 0 then (v :: rest).getLast (List.cons_ne_nil v rest)
      else rest.foldl (fun smoothed next =>
        α * smoothed + (1 - α) * next) v := rfl

theorem foldl_blend_zero_eq_getLast (rest : List ℚ) :
    ∀ v : ℚ, rest.foldl (fun smoothed next =>
        (0:ℚ) * smoothed + (1 - 0) * next) v =
      (v :: rest).getLast (List.cons_ne_nil v rest) := by
  induction rest with
  | nil => intro v; simp
  | cons w rest ih =>
    intro v
    rw [List.foldl_cons, List.getLast_cons (List.cons_ne_nil w rest)]
    have : (0:ℚ) * v + (1 - 0) * w = w := by ring
    rw [this, ih w]

theorem foldl_blend_mem_Icc (α lo hi : ℚ) (h0 : 0 ≤ α) (h1 : α ≤ 1)
    (rest : List ℚ) :
    ∀ s : ℚ, lo ≤ s → s ≤ hi → (∀ w ∈ rest, lo ≤ w ∧ w ≤ hi) →
      lo ≤ rest.foldl (fun smoothed next =>
          α * smoothed + (1 - α) * next) s ∧
      rest.foldl (fun smoothed next =>
          α * smoothed + (1 - α) * next) s ≤ hi := by
  induction rest with
  | nil => intro s hs1 hs2 _; exact ⟨hs1, hs2⟩
  | cons w rest ih =>
    intro s hs1 hs2 hmem
    rw [List.foldl_cons]
    have hw := hmem w (List.mem_cons_self w rest)
    refine ih (α * s + (1 - α) * w) ?_ ?_ (fun u hu => hmem u (List.mem_cons_of_mem w hu))
    · nlinarith [hw.1, hw.2]
    · nlinarith [hw.1, hw.2]

/-- C2: for every smoothing coefficient `α ∈ [0,1]` and non-empty
window `v :: rest` (oldest first), `calculateSmoothedValue` returns the
left fold of `smoothed = α·smoothed + (1-α)·next` started from the
oldest value, and with `α = 0` it returns the latest buffered value
unchanged. -/
theorem calculateSmoothedValue_fold (α : ℚ) (h0 : 0 ≤ α) (h1 : α ≤ 1)
    (v : ℚ) (rest : List ℚ) :
    calculateSmoothedValue (v :: rest) α =
      rest.foldl (fun smoothed next =>
        α * smoothed + (1 - α) * next) v ∧
    (α = 0 → calculateSmoothedValue (v :: rest) α =
      (v :: rest).getLast (List.cons_ne_nil v rest)) := by
  constructor
  · by_cases hα : α = 0
    · subst hα
      rw [calculateSmoothedValue_cons, if_pos rfl, foldl_blend_zero_eq_getLast rest v]
    · rw [calculateSmoothedValue_cons, if_neg hα]
  · intro hα
    subst hα
    rw [calculateSmoothedValue_cons, if_pos rfl]

/-- Witness for C2 at `α = 0` and `α = 1/2` on the window `[1, 2, 3]`. -/
theorem calculateSmoothedValue_fold_witness :
    calculateSmoothedValue [1, 2, 3] 0 = 3 ∧
    calculateSmoothedValue [1, 2, 3] (1/2) = 9/4 := by
  constructor
  · have h := (calculateSmoothedValue_fold 0 (by with_unfolding_all decide)
      (by with_unfolding_all decide) 1 [2, 3]).2 rfl
    rw [h]; with_unfolding_all decide
  · have h := (calculateSmoothedValue_fold (1/2) (by with_unfolding_all decide)
      (by with_unfolding_all decide) 1 [2, 3]).1
    rw [h]; with_unfolding_all decide

/-- C10: for every `α ∈ [0,1]` and non-empty window whose values all lie
in `[lo, hi]`, the smoothed value also lies in `[lo, hi]`, and a constant
window returns that constant exactly. -/
theorem calculateSmoothedValue_within_bounds (α lo hi : ℚ)
    (h0 : 0 ≤ α) (h1 : α ≤ 1) (v : ℚ) (rest : List ℚ)
    (hmem : ∀ w ∈ v :: rest, lo ≤ w ∧ w ≤ hi) :
    (lo ≤ calculateSmoothedValue (v :: rest) α ∧
     calculateSmoothedValue (v :: rest) α ≤ hi) ∧
    (∀ c : ℚ, ∀ n : ℕ, calculateSmoothedValue (List.replicate (n + 1) c) α = c) := by
  have bounds : ∀ (lo' hi' : ℚ) (v' : ℚ) (rest' : List ℚ),
      (∀ w ∈ v' :: rest', lo' ≤ w ∧ w ≤ hi') →
      lo' ≤ calculateSmoothedValue (v' :: rest') α ∧
      calculateSmoothedValue (v' :: rest') α ≤ hi' := by
    intro lo' hi' v' rest' hmem'
    have hv' := hmem' v' (List.mem_cons_self v' rest')
    by_cases hα : α = 0
    · subst hα
      rw [calculateSmoothedValue_cons, if_pos rfl]
      have hlast := List.getLast_mem (List.cons_ne_nil v' rest')
      exact hmem' _ hlast
    · rw [calculateSmoothedValue_cons, if_neg hα]
      exact foldl_blend_mem_Icc α lo' hi' h0 h1 rest' v' hv'.1 hv'.2
        (fun u hu => hmem' u (List.mem_cons_of_mem v' hu))
  refine ⟨bounds lo hi v rest hmem, ?_⟩
  intro c n
  have hrep : List.replicate (n + 1) c = c :: List.replicate n c :=
    List.replicate_succ c n
  have hmemc : ∀ w ∈ c :: List.replicate n c, c ≤ w ∧ w ≤ c := by
    intro w hw
    have hwc : w = c := by
      rcases List.mem_cons.mp hw with h | h
      · exact h
      · exact List.eq_of_mem_replicate h
    rw [hwc]
    exact ⟨le_refl c, le_refl c⟩
  have h := bounds c c c (List.replicate n c) hmemc
  rw [hrep]
  exact le_antisymm h.2 h.1

/-- Witness for C10 on the window `[1, 2, 3]` with `α = 1/2`,
`[lo, hi] = [1, 3]`. -/
theorem calculateSmoothedValue_within_bounds_witness :
    (1 ≤ calculateSmoothedValue [1, 2, 3] (1/2) ∧
     calculateSmoothedValue [1, 2, 3] (1/2) ≤ 3) ∧
    calculateSmoothedValue [7, 7] (1/2) = 7 := by
  have h := calculateSmoothedValue_within_bounds (1/2) 1 3
    (by with_unfolding_all decide) (by with_unfolding_all decide) 1 [2, 3]
    (by intro w hw; fin_cases hw <;> constructor <;> with_unfolding_all decide)
  refine ⟨h.1, ?_⟩
  have h7 := h.2 7 1
  simpa using h7

/-! ### Camera delta integration (C8) -/

/-- C8: the per-frame integration step adds to each position component
the matching translation axis times the fixed translation speed 5.0 and
the nominal frame duration 0.016, adds to each target component the
matching rotation axis times the fixed rotation speed 1.0 and the same
frame duration, and leaves zoom and field-of-view unchanged. -/
theorem applyMotionToCamera_euler_step (s : NavigationState)
    (m : SpaceMouseMotion) :
    (applyMotionToCamera s m).camera.position =
      (s.camera.position.1 + m.x * 5 * (16/1000),
       s.camera.position.2.1 + m.y * 5 * (16/1000),
       s.camera.position.2.2 + m.z * 5 * (16/1000)) ∧
    (applyMotionToCamera s m).camera.target =
      (s.camera.target.1 + m.rx * 1 * (16/1000),
       s.camera.target.2.1 + m.ry * 1 * (16/1000),
       s.camera.target.2.2 + m.rz * 1 * (16/1000)) ∧
    (applyMotionToCamera s m).camera.zoom = s.camera.zoom ∧
    (applyMotionToCamera s m).camera.fov = s.camera.fov :=
  ⟨rfl, rfl, rfl, rfl⟩

/-! ### Frame effect of history traversal (C9) -/

/-- C9: `navigateBack` and `navigateForward` never modify the history
sequence, the default camera, the animation duration, or the input
flags; only the camera pose, the current index and the animating flag
may change. -/
theorem navigate_history_readonly (s : NavigationState) :
    (navigateBack s).history = s.history ∧
    (navigateForward s).history = s.history ∧
    (navigateBack s).defaultCamera = s.defaultCamera ∧
    (navigateForward s).defaultCamera = s.defaultCamera ∧
    (navigateBack s).animationDuration = s.animationDuration ∧
    (navigateForward s).animationDuration = s.animationDuration ∧
    (navigateBack s).isDragging = s.isDragging ∧
    (navigateForward s).isDragging = s.isDragging ∧
    (navigateBack s).isSpaceMouseActive = s.isSpaceMouseActive ∧
    (navigateForward s).isSpaceMouseActive = s.isSpaceMouseActive := by
  unfold navigateBack navigateForward
  split_ifs <;> simp

/-! ### No clamping in the input pipeline (C7) -/

/-- Counterexample to C7: with the default settings (dead zone 0.1,
sensitivity 1, no inversion), the raw sample with `x = 2` is pushed into
the motion buffer with `x = 19/9`, a magnitude above 1 — the pipeline
does not clamp out-of-range components. -/
theorem handleMotion_no_clamp_counterexample :
    ¬ (∀ m ∈ handleMotion defaultSpaceMouseSettings []
        { x := 2, y := 0, z := 0, rx := 0, ry := 0, rz := 0, timestamp := 0 },
        |m.x| ≤ 1 ∧ |m.y| ≤ 1 ∧ |m.z| ≤ 1 ∧ |m.rx| ≤ 1 ∧ |m.ry| ≤ 1 ∧ |m.rz| ≤ 1) := by
  with_unfolding_all decide

/-- C7 as amended: the input pipeline never rejects a sample — the
transformed sample (dead zone, inversion, sensitivity) is always pushed
into the motion buffer as its newest entry, with the oldest entry
evicted beyond capacity 10 — but it applies no clamping, so a component
outside the physical range survives into the buffer unchanged by any
bound. -/
theorem handleMotion_always_buffers (settings : SpaceMouseSettings)
    (buffer : List SpaceMouseMotion) (motion : SpaceMouseMotion)
    (hcap : buffer.length ≤ 10) :
    (handleMotion settings buffer motion).getLast? =
      some (processMotion settings motion) ∧
    (handleMotion settings buffer motion).length =
      min (buffer.length + 1) 10 := by
  unfold handleMotion pushMotionBuffer
  set m := processMotion settings motion with hm
  by_cases h : (buffer ++ [m]).length > 10
  · rw [if_pos h]
    constructor
    · rcases buffer with _ | ⟨b, bs⟩
      · simp at h
      · simp [List.getLast?_append]
    · have hlen : (buffer ++ [m]).length = buffer.length + 1 := by simp
      have h10 : buffer.length = 10 := by omega
      have : (buffer ++ [m]).tail.length = buffer.length := by
        rw [List.length_tail, hlen]; omega
      omega
  · rw [if_neg h]
    constructor
    · simp [List.getLast?_append]
    · have hlen : (buffer ++ [m]).length = buffer.length + 1 := by simp
      simp at h
      omega

/-- Witness for C7 (amended) on an empty buffer and the default
settings. -/
theorem handleMotion_always_buffers_witness :
    (handleMotion defaultSpaceMouseSettings []
        { x := 2, y := 0, z := 0, rx := 0, ry := 0, rz := 0, timestamp := 0 }).getLast? =
      some (processMotion defaultSpaceMouseSettings
        { x := 2, y := 0, z := 0, rx := 0, ry := 0, rz := 0, timestamp := 0 }) :=
  (handleMotion_always_buffers defaultSpaceMouseSettings []
    { x := 2, y := 0, z := 0, rx := 0, ry := 0, rz := 0, timestamp := 0 }
    (by with_unfolding_all decide)).1

/-! ### Which operations snapshot history (C3) -/

theorem addToHistory_no_evict (s : NavigationState)
    (hsize : (s.currentHistoryIndex + 1).toNat + 1 ≤ 50) :
    (addToHistory s).history =
      s.history.take (s.currentHistoryIndex + 1).toNat ++ [s.camera] ∧
    (addToHistory s).currentHistoryIndex =
      ((s.history.take (s.currentHistoryIndex + 1).toNat ++ [s.camera]).length : ℤ) - 1 := by
  have hlen : (s.history.take (s.currentHistoryIndex + 1).toNat ++ [s.camera]).length ≤ 50 := by
    simp only [List.length_append, List.length_take, List.length_cons, List.length_nil]
    omega
  constructor <;>
  · simp only [addToHistory]
    rw [if_neg (by omega)]

/-- Counterexample to C3: `resetCamera` does not push a history
snapshot — at the initial state it leaves the history empty instead of
growing it by one. -/
theorem resetCamera_no_snapshot_counterexample :
    ¬ ((resetCamera initialNavigationState).history.length =
        initialNavigationState.history.length + 1) := by
  decide

/-- C3 as amended: among the store operations, only the explicit-jump
operation `animateToPosition` commits a history snapshot (growing the
history by one whenever the index is at the tail and the capacity bound
50 has not been reached); `resetCamera` leaves history and index
unchanged, as do the per-frame updates `setCameraPosition` and
`setCameraTarget`. -/
theorem history_snapshot_operations (s : NavigationState)
    (p t : ℚ × ℚ × ℚ) (topt : Option (ℚ × ℚ × ℚ))
    (htail : s.currentHistoryIndex = (s.history.length : ℤ) - 1)
    (hcap : s.history.length < 50) :
    (animateToPosition s p topt).history.length = s.history.length + 1 ∧
    (animateToPosition s p topt).currentHistoryIndex = (s.history.length : ℤ) ∧
    (resetCamera s).history = s.history ∧
    (resetCamera s).currentHistoryIndex = s.currentHistoryIndex ∧
    (setCameraPosition s p).history = s.history ∧
    (setCameraPosition s p).currentHistoryIndex = s.currentHistoryIndex ∧
    (setCameraTarget s t).history = s.history ∧
    (setCameraTarget s t).currentHistoryIndex = s.currentHistoryIndex := by
  have h := addToHistory_no_evict
    { s with
      camera :=
        { s.camera with position := p, target := topt.getD s.camera.target }
      isAnimating := true } (by simp only; omega)
  simp only at h
  have hlen : ∀ c : CameraState,
      (s.history.take (s.currentHistoryIndex + 1).toNat ++ [c]).length =
        s.history.length + 1 := by
    intro c
    simp only [List.length_append, List.length_take, List.length_cons, List.length_nil]
    omega
  refine ⟨?_, ?_, rfl, rfl, rfl, rfl, rfl, rfl⟩
  · show (addToHistory { s with
      camera :=
        { s.camera with position := p, target := topt.getD s.camera.target }
      isAnimating := true }).history.length = s.history.length + 1
    rw [h.1, hlen]
  · show (addToHistory { s with
      camera :=
        { s.camera with position := p, target := topt.getD s.camera.target }
      isAnimating := true }).currentHistoryIndex = (s.history.length : ℤ)
    rw [h.2, hlen]
    push_cast
    ring

/-- Witness for C3 (amended) at the initial state. -/
theorem history_snapshot_operations_witness :
    (animateToPosition initialNavigationState (1, 2, 3) none).history.length =
      initialNavigationState.history.length + 1 ∧
    (resetCamera initialNavigationState).history =
      initialNavigationState.history :=
  ⟨(history_snapshot_operations initialNavigationState (1, 2, 3) (0, 0, 0) none
      (by decide) (by decide)).1,
   (history_snapshot_operations initialNavigationState (1, 2, 3) (0, 0, 0) none
      (by decide) (by decide)).2.2.1⟩

/-! ### History truncation on commit (C4) -/

/-- C4: committing a snapshot while the index is strictly before the
tail discards all entries after the index and appends the snapshot,
leaving the index at the new tail; concretely, commit A, commit B,
back, commit C yields the history `[A, C]` with the index at C. -/
theorem addToHistory_truncates (s : NavigationState)
    (h0 : -1 ≤ s.currentHistoryIndex)
    (hlt : s.currentHistoryIndex < (s.history.length : ℤ) - 1)
    (hcap : s.history.length ≤ 50) (A B C : CameraState) :
    ((addToHistory s).history =
      s.history.take (s.currentHistoryIndex + 1).toNat ++ [s.camera] ∧
     (addToHistory s).currentHistoryIndex = s.currentHistoryIndex + 1) ∧
    ((commitSnapshot (navigateBack
        (commitSnapshot (commitSnapshot initialNavigationState A) B)) C).history =
      [A, C] ∧
     (commitSnapshot (navigateBack
        (commitSnapshot (commitSnapshot initialNavigationState A) B)) C).currentHistoryIndex = 1) := by
  have h := addToHistory_no_evict s (by omega)
  refine ⟨⟨h.1, ?_⟩, ?_, ?_⟩
  · rw [h.2]
    simp only [List.length_append, List.length_take, List.length_cons, List.length_nil]
    omega
  · simp [commitSnapshot, addToHistory, navigateBack, initialNavigationState]
  · simp [commitSnapshot, addToHistory, navigateBack, initialNavigationState]

/-- Witness for C4: the theorem applied at the state reached by
commit A, commit B, back — whose index 0 sits strictly before the tail
of its two-entry history — yielding the concrete `[A, C]` scenario. -/
theorem addToHistory_truncates_witness :
    (commitSnapshot (navigateBack
        (commitSnapshot (commitSnapshot initialNavigationState poseA) poseB)) poseC).history =
      [poseA, poseC] ∧
    (commitSnapshot (navigateBack
        (commitSnapshot (commitSnapshot initialNavigationState poseA) poseB)) poseC).currentHistoryIndex = 1 :=
  (addToHistory_truncates (navigateBack
      (commitSnapshot (commitSnapshot initialNavigationState poseA) poseB))
    (by decide) (by decide) (by decide) poseA poseB poseC).2

/-! ### The history-index invariant (C6) -/

theorem navigateBack_history_eq (s : NavigationState) :
    (navigateBack s).history = s.history := by
  unfold navigateBack; split_ifs <;> rfl

theorem navigateBack_index_eq (s : NavigationState) :
    (navigateBack s).currentHistoryIndex =
      if 0 < s.currentHistoryIndex then s.currentHistoryIndex - 1
      else s.currentHistoryIndex := by
  unfold navigateBack; split_ifs <;> rfl

theorem navigateForward_history_eq (s : NavigationState) :
    (navigateForward s).history = s.history := by
  unfold navigateForward; split_ifs <;> rfl

theorem navigateForward_index_eq (s : NavigationState) :
    (navigateForward s).currentHistoryIndex =
      if s.currentHistoryIndex < (s.history.length : ℤ) - 1 then
        s.currentHistoryIndex + 1
      else s.currentHistoryIndex := by
  unfold navigateForward; split_ifs <;> rfl

theorem addToHistory_index_tail (s : NavigationState) :
    (addToHistory s).currentHistoryIndex =
      ((addToHistory s).history.length : ℤ) - 1 := rfl

theorem addToHistory_history_ne_nil (s : NavigationState) :
    (addToHistory s).history ≠ [] := by
  simp only [addToHistory]
  split_ifs with h
  · intro hc
    have hlen := congrArg List.length hc
    simp only [List.length_tail, List.length_append, List.length_take,
      List.length_cons, List.length_nil] at hlen h
    omega
  · simp

theorem indexInvariant_addToHistory (s : NavigationState) :
    indexInvariant (addToHistory s) := by
  unfold indexInvariant
  right
  have h1 := addToHistory_index_tail s
  have h2 : 0 < (addToHistory s).history.length :=
    List.length_pos.mpr (addToHistory_history_ne_nil s)
  omega

theorem indexInvariant_navigateBack (s : NavigationState)
    (h : indexInvariant s) : indexInvariant (navigateBack s) := by
  unfold indexInvariant at h ⊢
  rw [navigateBack_history_eq, navigateBack_index_eq]
  split_ifs with hg
  · rcases h with ⟨hnil, hidx⟩ | ⟨h0, hlt⟩
    · exact absurd hg (by omega)
    · right; omega
  · exact h

theorem indexInvariant_navigateForward (s : NavigationState)
    (h : indexInvariant s) : indexInvariant (navigateForward s) := by
  unfold indexInvariant at h ⊢
  rw [navigateForward_history_eq, navigateForward_index_eq]
  split_ifs with hg
  · rcases h with ⟨hnil, hidx⟩ | ⟨h0, hlt⟩
    · exfalso
      have hlen : s.history.length = 0 := by rw [hnil]; rfl
      omega
    · right; omega
  · exact h

theorem indexInvariant_of_same_history (s s' : NavigationState)
    (hh : s'.history = s.history)
    (hi : s'.currentHistoryIndex = s.currentHistoryIndex)
    (h : indexInvariant s) : indexInvariant s' := by
  unfold indexInvariant at h ⊢
  rw [hh, hi]
  exact h

theorem indexInvariant_applyNavOp (s : NavigationState) (op : NavOp)
    (h : indexInvariant s) : indexInvariant (applyNavOp s op) := by
  cases op with
  | addToHistory => exact indexInvariant_addToHistory s
  | navigateBack => exact indexInvariant_navigateBack s h
  | navigateForward => exact indexInvariant_navigateForward s h
  | resetCamera => exact indexInvariant_of_same_history s _ rfl rfl h
  | animateToPosition p t => exact indexInvariant_addToHistory _
  | setCameraPosition p => exact indexInvariant_of_same_history s _ rfl rfl h
  | setCameraTarget t => exact indexInvariant_of_same_history s _ rfl rfl h
  | setZoom z => exact indexInvariant_of_same_history s _ rfl rfl h

theorem indexInvariant_runNavOps (ops : List NavOp) :
    ∀ s : NavigationState, indexInvariant s → indexInvariant (runNavOps s ops) := by
  induction ops with
  | nil => intro s h; exact h
  | cons op ops ih =>
    intro s h
    exact ih (applyNavOp s op) (indexInvariant_applyNavOp s op h)

/-- C6: in every state reachable from the initial navigation state by
the store operations, the history index is -1 exactly when the history
is empty, and otherwise points at a valid entry
(`0 ≤ index < history.length`). -/
theorem navigation_index_invariant_reachable (ops : List NavOp) :
    ((runNavOps initialNavigationState ops).currentHistoryIndex = -1 ↔
      (runNavOps initialNavigationState ops).history = []) ∧
    ((runNavOps initialNavigationState ops).history ≠ [] →
      0 ≤ (runNavOps initialNavigationState ops).currentHistoryIndex ∧
      (runNavOps initialNavigationState ops).currentHistoryIndex <
        ((runNavOps initialNavigationState ops).history.length : ℤ)) := by
  have hinit : indexInvariant initialNavigationState := by
    unfold indexInvariant
    left
    exact ⟨rfl, rfl⟩
  have h := indexInvariant_runNavOps ops initialNavigationState hinit
  unfold indexInvariant at h
  rcases h with ⟨hnil, hidx⟩ | ⟨h0, hlt⟩
  · exact ⟨⟨fun _ => hnil, fun _ => hidx⟩, fun hne => absurd hnil hne⟩
  · refine ⟨⟨fun h1 => absurd h1 (by omega), fun hnil => ?_⟩, fun _ => ⟨h0, hlt⟩⟩
    exfalso
    rw [hnil] at hlt
    simp only [List.length_nil, Nat.cast_zero] at hlt
    omega

/-- Witness for C6: after the single operation `addToHistory` the
history is non-empty and the index points at a valid entry. -/
theorem navigation_index_invariant_reachable_witness :
    0 ≤ (runNavOps initialNavigationState [NavOp.addToHistory]).currentHistoryIndex ∧
    (runNavOps initialNavigationState [NavOp.addToHistory]).currentHistoryIndex <
      ((runNavOps initialNavigationState [NavOp.addToHistory]).history.length : ℤ) :=
  (navigation_index_invariant_reachable [NavOp.addToHistory]).2 (by decide)

/-! ### History boundary behaviour and replay (C5) -/

theorem addToHistory_at_tail (s : NavigationState)
    (htail : s.currentHistoryIndex = (s.history.length : ℤ) - 1)
    (hcap : s.history.length + 1 ≤ 50) :
    (addToHistory s).history = s.history ++ [s.camera] ∧
    (addToHistory s).currentHistoryIndex = (s.history.length : ℤ) := by
  have htoNat : (s.currentHistoryIndex + 1).toNat = s.history.length := by omega
  have h := addToHistory_no_evict s (by omega)
  rcases h with ⟨h1, h2⟩
  rw [htoNat, List.take_length] at h1 h2
  refine ⟨h1, ?_⟩
  rw [h2]
  simp only [List.length_append, List.length_cons, List.length_nil]
  push_cast
  ring

theorem animateToPosition_step (s : NavigationState) (p : ℚ × ℚ × ℚ)
    (htail : s.currentHistoryIndex = (s.history.length : ℤ) - 1)
    (hcap : s.history.length + 1 ≤ 50) :
    (animateToPosition s p none).history =
      s.history ++ [{ s.camera with position := p }] ∧
    (animateToPosition s p none).currentHistoryIndex = (s.history.length : ℤ) ∧
    (animateToPosition s p none).camera = { s.camera with position := p } := by
  have h := addToHistory_at_tail
    { s with
      camera := { s.camera with position := p }
      isAnimating := true }
    (by show s.currentHistoryIndex = (s.history.length : ℤ) - 1; exact htail)
    (by show s.history.length + 1 ≤ 50; exact hcap)
  exact ⟨h.1, h.2, rfl⟩

theorem getLast?_getD_cons {α : Type} (ps : List α) :
    ∀ (p x : α), (p :: ps).getLast?.getD x = ps.getLast?.getD p := by
  induction ps with
  | nil => intro p x; rfl
  | cons w ws ih =>
    intro p x
    rw [List.getLast?_cons_cons, ih w x, ih w p]

theorem animateSeq_spec (ps : List (ℚ × ℚ × ℚ)) :
    ∀ s : NavigationState,
      s.currentHistoryIndex = (s.history.length : ℤ) - 1 →
      s.history.length + ps.length ≤ 50 →
      (animateSeq s ps).history =
        s.history ++ ps.map (fun p => { s.camera with position := p }) ∧
      (animateSeq s ps).currentHistoryIndex =
        (s.history.length : ℤ) + ps.length - 1 ∧
      (animateSeq s ps).camera =
        { s.camera with position := ps.getLast?.getD s.camera.position } := by
  induction ps with
  | nil =>
    intro s htail _
    refine ⟨by simp [animateSeq], ?_, rfl⟩
    show s.currentHistoryIndex = (s.history.length : ℤ) + (0 : ℕ) - 1
    push_cast
    omega
  | cons p ps ih =>
    intro s htail hcap
    have hstep := animateToPosition_step s p htail
      (by simp only [List.length_cons] at hcap; omega)
    have htail' : (animateToPosition s p none).currentHistoryIndex =
        ((animateToPosition s p none).history.length : ℤ) - 1 := by
      rw [hstep.2.1, hstep.1]
      simp
    have hcap' : (animateToPosition s p none).history.length + ps.length ≤ 50 := by
      rw [hstep.1]
      simp only [List.length_append, List.length_cons, List.length_nil] at hcap ⊢
      omega
    have ih' := ih (animateToPosition s p none) htail' hcap'
    refine ⟨?_, ?_, ?_⟩
    · show (animateSeq (animateToPosition s p none) ps).history = _
      rw [ih'.1, hstep.2.2, hstep.1]
      simp [List.append_assoc]
    · show (animateSeq (animateToPosition s p none) ps).currentHistoryIndex = _
      rw [ih'.2.1, hstep.1]
      simp only [List.length_append, List.length_cons, List.length_nil]
      push_cast
      ring
    · show (animateSeq (animateToPosition s p none) ps).camera = _
      rw [ih'.2.2, hstep.2.2]
      simp only
      rw [(getLast?_getD_cons ps p s.camera.position).symm]

theorem getD_of_lt_default_irrel (l : List CameraState) (j : ℕ)
    (hj : j < l.length) (d d' : CameraState) :
    l.getD j d = l.getD j d' := by
  rw [List.getD_eq_getElem l d hj, List.getD_eq_getElem l d' hj]

theorem backIter_spec (k : ℕ) :
    ∀ (s : NavigationState) (i : ℕ),
      i < s.history.length →
      s.currentHistoryIndex = (i : ℤ) →
      s.camera = s.history.getD i defaultCameraState →
      (backIter k s).history = s.history ∧
      (backIter k s).currentHistoryIndex = ((i - k : ℕ) : ℤ) ∧
      (backIter k s).camera = s.history.getD (i - k) defaultCameraState := by
  induction k with
  | zero =>
    intro s i _ hidx hcam
    exact ⟨rfl, hidx, hcam⟩
  | succ k ih =>
    intro s i hi hidx hcam
    cases i with
    | zero =>
      have hnb : navigateBack s = s := by
        unfold navigateBack
        rw [if_neg (by omega)]
      have e : backIter (k + 1) s = backIter k s := by
        have e1 : backIter (k + 1) s = backIter k (navigateBack s) := rfl
        rw [e1, hnb]
      rw [e]
      have hsub : ((0 : ℕ) - (k + 1) : ℕ) = 0 - k := by omega
      rw [hsub]
      exact ih s 0 hi hidx hcam
    | succ j =>
      have hg : 0 < s.currentHistoryIndex := by omega
      have hnb : navigateBack s =
          { s with
            camera := s.history.getD (s.currentHistoryIndex - 1).toNat s.camera
            currentHistoryIndex := s.currentHistoryIndex - 1
            isAnimating := true } := by
        unfold navigateBack
        rw [if_pos hg]
      have hjnat : (s.currentHistoryIndex - 1).toNat = j := by omega
      have hjlt : j < s.history.length := by omega
      have hcamNB : (navigateBack s).camera =
          s.history.getD (s.currentHistoryIndex - 1).toNat s.camera := by
        rw [hnb]
      have hidxNB : (navigateBack s).currentHistoryIndex =
          s.currentHistoryIndex - 1 := by
        rw [hnb]
      have hhistNB : (navigateBack s).history = s.history := by
        rw [hnb]
      have h := ih (navigateBack s) j
        (by rw [hhistNB]; exact hjlt)
        (by rw [hidxNB]; omega)
        (by rw [hcamNB, hhistNB, hjnat]
            exact getD_of_lt_default_irrel s.history j hjlt s.camera defaultCameraState)
      rw [hhistNB] at h
      have hsub : j - k = (j + 1) - (k + 1) := by omega
      rw [hsub] at h
      have e : backIter (k + 1) s = backIter k (navigateBack s) := rfl
      rw [e]
      exact h

theorem cons_getD_length (d : CameraState) :
    ∀ (qs : List CameraState) (q : CameraState),
      (q :: qs).getD qs.length d = qs.getLast?.getD q := by
  intro qs
  induction qs with
  | nil => intro q; rfl
  | cons w ws ih =>
    intro q
    have h1 : (q :: w :: ws).getD (w :: ws).length d =
        (w :: ws).getD ws.length d := rfl
    rw [h1, ih w]
    exact (getLast?_getD_cons ws w q).symm

/-- Counterexample to C5: after N = 1 discrete navigation call
(`animateToPosition` to position (1,2,3)), one `historyBack()` call does
NOT return the camera to the initial pose — the initial pose is never
snapshotted, so the call is a boundary no-op that leaves the camera at
the animated pose. -/
theorem historyBack_initial_pose_counterexample :
    ¬ ((backIter 1 (animateSeq initialNavigationState [(1, 2, 3)])).camera =
        initialNavigationState.camera) := by
  decide

/-- C5 as amended: navigating past the ends of history is a no-op that
leaves the whole state unchanged (`navigateBack` when the index is at or
below 0, `navigateForward` when it is at or past the tail); and after N
discrete navigation calls (N ≤ capacity 50) from the initial state,
`historyBack()` called N−1 times returns the camera to the FIRST
discretely-navigated pose — not the initial pose, which is never in the
history — and every further call (the N-th, the (N+1)-th, …) leaves the
pose unchanged there. -/
theorem history_boundary_noop :
    (∀ s : NavigationState, s.currentHistoryIndex ≤ 0 → navigateBack s = s) ∧
    (∀ s : NavigationState,
      (s.history.length : ℤ) - 1 ≤ s.currentHistoryIndex → navigateForward s = s) ∧
    (∀ (q : ℚ × ℚ × ℚ) (qs : List (ℚ × ℚ × ℚ)) (k : ℕ),
      (q :: qs).length ≤ 50 → qs.length ≤ k →
      (backIter k (animateSeq initialNavigationState (q :: qs))).camera =
        { defaultCameraState with position := q }) := by
  refine ⟨?_, ?_, ?_⟩
  · intro s h
    unfold navigateBack
    rw [if_neg (by omega)]
  · intro s h
    unfold navigateForward
    rw [if_neg (by omega)]
  · intro q qs k hcap hk
    have hseq := animateSeq_spec (q :: qs) initialNavigationState
      (by decide)
      (by simp only [initialNavigationState, List.length_nil, List.length_cons] at hcap ⊢
          omega)
    have hlen : (animateSeq initialNavigationState (q :: qs)).history.length =
        qs.length + 1 := by
      rw [hseq.1]
      simp [initialNavigationState]
    have hmap : (animateSeq initialNavigationState (q :: qs)).history =
        (q :: qs).map (fun p => { defaultCameraState with position := p }) := by
      rw [hseq.1]
      rfl
    have hidx : (animateSeq initialNavigationState (q :: qs)).currentHistoryIndex =
        ((qs.length : ℕ) : ℤ) := by
      rw [hseq.2.1]
      simp only [initialNavigationState, List.length_nil, List.length_cons]
      push_cast
      ring
    have hcamAligned : (animateSeq initialNavigationState (q :: qs)).camera =
        (animateSeq initialNavigationState (q :: qs)).history.getD qs.length
          defaultCameraState := by
      rw [hseq.2.2, hmap]
      have hmapcons : (q :: qs).map (fun p => { defaultCameraState with position := p }) =
          { defaultCameraState with position := q } ::
            qs.map (fun p => { defaultCameraState with position := p }) := rfl
      rw [hmapcons]
      have hlenmap : (qs.map (fun p =>
          ({ defaultCameraState with position := p } : CameraState))).length = qs.length := by
        simp
      rw [show qs.length = (qs.map (fun p =>
          ({ defaultCameraState with position := p } : CameraState))).length from hlenmap.symm]
      rw [cons_getD_length]
      -- both sides are the last snapshot
      cases hq : qs.getLast? with
      | none =>
        have : qs = [] := List.getLast?_eq_none_iff.mp hq
        subst this
        rfl
      | some w =>
        have hmaplast : (qs.map (fun p =>
            ({ defaultCameraState with position := p } : CameraState))).getLast? =
            some { defaultCameraState with position := w } := by
          rw [List.getLast?_map, hq]
          rfl
        rw [hmaplast]
        simp only [Option.getD_some]
        rw [getLast?_getD_cons qs q initialNavigationState.camera.position, hq]
        rfl
    have hback := backIter_spec k (animateSeq initialNavigationState (q :: qs))
      qs.length (by omega) hidx hcamAligned
    have hzero : qs.length - k = 0 := by omega
    rw [hback.2.2, hzero, hmap]
    rfl

/-- Witness for C5 (amended): one discrete call to position (1,2,3),
then one and two back-calls both leave the camera at that pose; and the
back/forward no-ops at the initial state. -/
theorem history_boundary_noop_witness :
    (backIter 1 (animateSeq initialNavigationState [(1, 2, 3)])).camera =
      { defaultCameraState with position := (1, 2, 3) } ∧
    (backIter 2 (animateSeq initialNavigationState [(1, 2, 3)])).camera =
      { defaultCameraState with position := (1, 2, 3) } ∧
    navigateBack initialNavigationState = initialNavigationState :=
  ⟨history_boundary_noop.2.2 (1, 2, 3) [] 1 (by decide) (by decide),
   history_boundary_noop.2.2 (1, 2, 3) [] 2 (by decide) (by decide),
   history_boundary_noop.1 initialNavigationState (by decide)⟩

end SemanticSphere
